import Mathlib

/-!
Verification of the descriptor / acceptance-criteria engine of the `reptar`
repository (`reptar/descriptors.py`) against its natural-language
specification.

The embedding models numpy arrays as nested lists over `ℝ`:
a frame is a list of 3-vectors `(n_atoms, 3)`, a batch is a list of frames
`(n_frames, n_atoms, 3)`.  Fallible numpy operations (out-of-range indexing,
reductions over empty axes, zero weight sums, duplicate keyword arguments)
are modelled with `Except Err`.
-/

namespace Reptar

/-- Error kinds a call can surface, standing for the Python exceptions raised
by the source: numpy `IndexError`, numpy `ZeroDivisionError` from
`np.average` with zero weight sum, Python `TypeError` for a duplicated
keyword argument, and numpy's `ValueError` from a reduction over an empty
axis. -/
inductive Err where
  | indexError
  | zeroDivision
  | duplicateArgument
  | reduceEmpty
  deriving DecidableEq

/-- A 3D cartesian point. -/
abbrev Vec3 : Type := ℝ × ℝ × ℝ

/-- One set of atomic coordinates, shape `(n_atoms, 3)`. -/
abbrev Frame : Type := List Vec3

/-- A batch of frames, shape `(n_frames, n_atoms, 3)`. -/
abbrev Batch : Type := List Frame

/-- Modelled from the spec: `reptar.utils.z_to_mass` (the Mass Table of
spec §4.1) is imported by `descriptors.py` but its module is not among the
provided sources.  The spec describes it as an external read-only mapping
from atomic number to atomic mass, so every embedded descriptor takes the
table as an explicit parameter of this type. -/
abbrev MassTable : Type := ℕ → ℝ

/-- Componentwise difference of two points. -/
def vsub (a b : Vec3) : Vec3 := (a.1 - b.1, a.2.1 - b.2.1, a.2.2 - b.2.2)

/-- Euclidean norm of a 3-vector (`np.linalg.norm` with `axis` the last
coordinate axis). -/
noncomputable def vnorm (a : Vec3) : ℝ :=
  Real.sqrt (a.1 ^ 2 + a.2.1 ^ 2 + a.2.2 ^ 2)

/-- Euclidean distance of two points. -/
noncomputable def dist3 (a b : Vec3) : ℝ := vnorm (vsub a b)

/-- The loop `for i in range(n): masses[i] = z_to_mass[Z[i]]` reads exactly
the first `n` entries of `Z`; it raises `IndexError` iff `n > len(Z)`. -/
def takeExact (Z : List ℕ) (n : ℕ) : Option (List ℕ) :=
  if n ≤ Z.length then some (Z.take n) else none

/-- Fancy indexing `l[idxs]` on one axis: fails (numpy `IndexError`) as soon
as one index is out of range. -/
def selectIdxs {α : Type} (l : List α) : List ℕ → Option (List α)
  | [] => some []
  | i :: rest =>
    match l[i]?, selectIdxs l rest with
    | some v, some vs => some (v :: vs)
    | _, _ => none

/-- Fancy indexing `R[:, idxs]` on the atom axis of a batch. -/
def selectBatch (idxs : List ℕ) : Batch → Option Batch
  | [] => some []
  | f :: rest =>
    match selectIdxs f idxs, selectBatch idxs rest with
    | some fs, some fss => some (fs :: fss)
    | _, _ => none

/-- Per-frame weighted average of atom positions, as computed by
`np.average(R, axis=1, weights=R_masses)` where every coordinate channel of
atom `i` carries the same weight `masses[i]`. -/
noncomputable def weightedAvg (masses : List ℝ) (f : Frame) : Vec3 :=
  ((List.zipWith (fun w (v : Vec3) => w * v.1) masses f).sum / masses.sum,
   (List.zipWith (fun w (v : Vec3) => w * v.2.1) masses f).sum / masses.sum,
   (List.zipWith (fun w (v : Vec3) => w * v.2.2) masses f).sum / masses.sum)

/-- `get_center_of_mass(Z, R)` for a batched `R`: builds the mass vector
from the first `n_atoms` entries of `Z` (where `n_atoms` is read off
`R[0]`, raising on an empty batch), then averages each frame with those
weights.  `np.average` raises `ZeroDivisionError` when the weights sum to
zero. -/
noncomputable def get_center_of_mass (mass : MassTable) (Z : List ℕ) (R : Batch) :
    Except Err (List Vec3) :=
  match R.head? with
  | none => .error .indexError
  | some f0 =>
    match takeExact Z f0.length with
    | none => .error .indexError
    | some Zn =>
      let masses := Zn.map mass
      if masses.sum = 0 then .error .zeroDivision
      else .ok (R.map (weightedAvg masses))

/-- `itertools.combinations(range(n), 2)`: all pairs `(i, j)` with
`i < j < n`, in lexicographic order. -/
def combinations2 (n : ℕ) : List (ℕ × ℕ) :=
  (List.range n).flatMap fun i =>
    ((List.range n).filter fun j => i < j).map fun j => (i, j)

/-- `np.amax` over a one-dimensional slice: `none` on an empty slice
(numpy raises `ValueError` there). -/
noncomputable def amax : List ℝ → Option ℝ
  | [] => none
  | a :: rest => some (rest.foldl max a)

/-- `np.amax(distances, axis=1)`: per-frame maximum. -/
noncomputable def amaxAll : List (List ℝ) → Option (List ℝ)
  | [] => some []
  | d :: rest =>
    match amax d, amaxAll rest with
    | some m, some ms => some (m :: ms)
    | _, _ => none

/-- `max_atom_pair_dist(Z, R)` for a batched `R`.  Mirrors the source: the
pair list is built from `len(Z)` alone; when no pair exists the slice
`all_pairs[:, 0]` of the empty 1-D array raises `IndexError`; point
gathering indexes `R[i, j]` and raises when `j` exceeds the atom axis. -/
noncomputable def max_atom_pair_dist (Z : List ℕ) (R : Batch) : Except Err (List ℝ) :=
  let all_pairs := combinations2 Z.length
  if all_pairs.isEmpty then .error .indexError
  else
    match selectBatch (all_pairs.map Prod.fst) R, selectBatch (all_pairs.map Prod.snd) R with
    | some p0, some p1 =>
      match amaxAll (List.zipWith (fun l0 l1 => List.zipWith dist3 l0 l1) p0 p1) with
      | some ms => .ok ms
      | none => .error .reduceEmpty
    | _, _ => .error .indexError

/-- `np.where(entity_ids == eid)[0]`: positions of `eid` in ascending
order. -/
def whereEq (entity_ids : List ℤ) (eid : ℤ) : List ℕ :=
  (List.range entity_ids.length).filter fun i => entity_ids[i]? = some eid

/-- The entity center of mass exactly as the source computes it:
`get_center_of_mass(Z, R[:, atom_idxs])` — note that the **full** `Z` is
passed alongside the restricted coordinates, so the mass vector inside is
built from the first `len(atom_idxs)` entries of `Z`, not from the
entity's own atomic numbers. -/
noncomputable def entity_cm (mass : MassTable) (Z : List ℕ) (R : Batch)
    (entity_ids : List ℤ) (eid : ℤ) : Except Err (List Vec3) :=
  match selectBatch (whereEq entity_ids eid) R with
  | none => .error .indexError
  | some Rsub => get_center_of_mass mass Z Rsub

/-- The `for entity_id in set(entity_ids)` accumulation loop of
`com_distance_sum`: `d_sum += np.linalg.norm(cm_structures - cm_entity, axis=1)`. -/
noncomputable def com_dsum_loop (mass : MassTable) (Z : List ℕ) (R : Batch)
    (entity_ids : List ℤ) (cms : List Vec3) : List ℤ → List ℝ → Except Err (List ℝ)
  | [], d_sum => .ok d_sum
  | eid :: rest, d_sum =>
    match entity_cm mass Z R entity_ids eid with
    | .error e => .error e
    | .ok cme =>
      com_dsum_loop mass Z R entity_ids cms rest
        (List.zipWith (· + ·) d_sum (List.zipWith dist3 cms cme))

/-- `com_distance_sum` with the iteration order over the distinct entity
identifiers made explicit (`set(entity_ids)` iterates in an unspecified
order, so the order is a parameter here). -/
noncomputable def com_distance_sum_over (mass : MassTable) (Z : List ℕ) (R : Batch)
    (entity_ids : List ℤ) (ids : List ℤ) : Except Err (List ℝ) :=
  match get_center_of_mass mass Z R with
  | .error e => .error e
  | .ok cms => com_dsum_loop mass Z R entity_ids cms ids (List.replicate R.length 0)

/-- `com_distance_sum(Z, R, entity_ids)` for a batched `R`, visiting the
distinct entity identifiers once each. -/
noncomputable def com_distance_sum (mass : MassTable) (Z : List ℕ) (R : Batch)
    (entity_ids : List ℤ) : Except Err (List ℝ) :=
  com_distance_sum_over mass Z R entity_ids entity_ids.dedup

/-- The spec-side entity center of mass ("Center of Mass restricted to that
entity's atom subset", spec §4.2): both the coordinates *and* the atomic
numbers are restricted to the entity's atoms, so the entity's own masses
weight its average.  Kept separate from `entity_cm` (the source's
computation) for the comparison in claim C1. -/
noncomputable def entity_cm_spec (mass : MassTable) (Z : List ℕ) (R : Batch)
    (entity_ids : List ℤ) (eid : ℤ) : Except Err (List Vec3) :=
  match selectIdxs Z (whereEq entity_ids eid), selectBatch (whereEq entity_ids eid) R with
  | some Zsub, some Rsub => get_center_of_mass mass Zsub Rsub
  | _, _ => .error .indexError

/-- The accumulation loop of the spec-side `com_distance_sum`. -/
noncomputable def com_dsum_loop_spec (mass : MassTable) (Z : List ℕ) (R : Batch)
    (entity_ids : List ℤ) (cms : List Vec3) : List ℤ → List ℝ → Except Err (List ℝ)
  | [], d_sum => .ok d_sum
  | eid :: rest, d_sum =>
    match entity_cm_spec mass Z R entity_ids eid with
    | .error e => .error e
    | .ok cme =>
      com_dsum_loop_spec mass Z R entity_ids cms rest
        (List.zipWith (· + ·) d_sum (List.zipWith dist3 cms cme))

/-- `com_distance_sum` as the spec words it: each entity's center of mass is
computed from that entity's atoms and their masses only. -/
noncomputable def com_distance_sum_specCM (mass : MassTable) (Z : List ℕ) (R : Batch)
    (entity_ids : List ℤ) : Except Err (List ℝ) :=
  match get_center_of_mass mass Z R with
  | .error e => .error e
  | .ok cms =>
    com_dsum_loop_spec mass Z R entity_ids cms entity_ids.dedup (List.replicate R.length 0)

/-- Keyword-argument mapping passed to a descriptor after `Z` and `R`
(in the source these carry e.g. `entity_ids`). -/
abbrev KwargMap : Type := List (String × List ℤ)

/-- The type of a descriptor function: first two arguments `Z` and `R`
(already batched by the caller), then keyword arguments. -/
abbrev Desc : Type := List ℕ → Batch → KwargMap → Except Err (List ℝ)

/-- `Criteria(desc, desc_kwargs, cutoff)`. -/
structure Criteria where
  desc : Desc
  desc_kwargs : KwargMap
  cutoff : ℝ

/-- Whether two keyword maps share a key: Python raises `TypeError`
("got multiple values for keyword argument") while building the call
`self.desc(Z, R, **self.desc_kwargs, **kwargs)` when they do. -/
def kwCollide (a b : KwargMap) : Bool :=
  a.any fun p => (b.map Prod.fst).contains p.1

/-- The coordinate argument of `Criteria.accept`: either a single frame
(`R.ndim == 2`) or a batch (`R.ndim == 3`). -/
inductive Coords where
  | dim2 (f : Frame)
  | dim3 (b : Batch)

/-- The shape normalization `if R.ndim == 2: R = R[None, ...]`. -/
def promote : Coords → Batch
  | .dim2 f => [f]
  | .dim3 b => b

/-- A value that is either squeezed to scalar form or a per-frame array,
as returned by `Criteria.accept`. -/
inductive Sq (α : Type) where
  | scalar (a : α)
  | arr (l : List α)

/-- `true` exactly on the per-frame array form. -/
def Sq.isArr {α : Type} : Sq α → Bool
  | .scalar _ => false
  | .arr _ => true

/-- Extracting element `[0]`, as the spec's single-vs-batch parity property
prescribes for the batch result: defined on the array form only — indexing
`[0]` into an already-squeezed numpy scalar raises. -/
def Sq.fst? {α : Type} : Sq α → Option α
  | .scalar _ => none
  | .arr l => l.head?

/-- `true` iff the call returned instead of raising. -/
def succeeds {α : Type} : Except Err α → Bool
  | .ok _ => true
  | .error _ => false

/-- `Criteria.accept(Z, R, **kwargs)`: promotes `R`, records `n_R` from the
promoted shape, calls the descriptor with the fixed and call-time keyword
arguments merged (raising on a duplicated key), compares
`desc_v < cutoff`, and squeezes both results with `[0]` when `n_R == 1`. -/
noncomputable def Criteria.accept (c : Criteria) (Z : List ℕ) (Rin : Coords)
    (kwargs : KwargMap) : Except Err (Sq Bool × Sq ℝ) :=
  let R := promote Rin
  let n_R := R.length
  if kwCollide c.desc_kwargs kwargs then .error .duplicateArgument
  else
    match c.desc Z R (c.desc_kwargs ++ kwargs) with
    | .error e => .error e
    | .ok desc_v =>
      let accept_r := desc_v.map fun v => decide (v < c.cutoff)
      if n_R = 1 then
        match accept_r.head?, desc_v.head? with
        | some a, some v => .ok (.scalar a, .scalar v)
        | _, _ => .error .indexError
      else .ok (.arr accept_r, .arr desc_v)

/-- `max_atom_pair_dist` wrapped as a descriptor (it takes no keyword
arguments). -/
noncomputable def maxDistDesc : Desc := fun Z R _ => max_atom_pair_dist Z R

/-- A `Criteria` over `max_atom_pair_dist` with no fixed keyword arguments. -/
noncomputable def maxDistCriteria (cut : ℝ) : Criteria :=
  { desc := maxDistDesc, desc_kwargs := [], cutoff := cut }

/-! ### Helper lemmas -/

lemma dist3_zaxis (a b : ℝ) : dist3 (0, 0, a) (0, 0, b) = |a - b| := by
  simp [dist3, vsub, vnorm, sub_self]
  rw [Real.sqrt_sq_eq_abs]

lemma abs_sub_of_le {a b : ℝ} (h : a ≤ b) : |a - b| = b - a := by
  rw [abs_sub_comm, abs_of_nonneg (sub_nonneg.mpr h)]

lemma abs_sub_of_ge {a b : ℝ} (h : b ≤ a) : |a - b| = a - b :=
  abs_of_nonneg (sub_nonneg.mpr h)

/-- Evaluation rule for `get_center_of_mass` on a nonempty batch once the
mass lookup succeeds and the weights do not sum to zero. -/
lemma get_center_of_mass_eval (mass : MassTable) (Z Zn : List ℕ) (f0 : Frame) (rest : Batch)
    (h1 : takeExact Z f0.length = some Zn) (h2 : (Zn.map mass).sum ≠ 0) :
    get_center_of_mass mass Z (f0 :: rest) =
      .ok ((f0 :: rest).map (weightedAvg (Zn.map mass))) := by
  simp only [get_center_of_mass, List.head?_cons, h1]
  rw [if_neg h2]

/-- A one-atom frame with a nonzero weight averages to its atom's
position. -/
lemma weightedAvg_single (m : ℝ) (hm : m ≠ 0) (p : Vec3) : weightedAvg [m] [p] = p := by
  obtain ⟨a, b, c⟩ := p
  simp only [weightedAvg, List.zipWith, List.sum_cons, List.sum_nil, add_zero]
  rw [mul_div_cancel_left₀ a hm, mul_div_cancel_left₀ b hm, mul_div_cancel_left₀ c hm]

/-- Pointwise addition of real lists is right-commutative, whatever the
lengths involved. -/
lemma zipWith_add_right_comm : ∀ a b c : List ℝ,
    List.zipWith (· + ·) (List.zipWith (· + ·) a b) c =
      List.zipWith (· + ·) (List.zipWith (· + ·) a c) b := by
  intro a
  induction a with
  | nil => intro b c; rfl
  | cons x xs ih =>
    intro b c
    cases b with
    | nil => cases c <;> rfl
    | cons y ys =>
      cases c with
      | nil => rfl
      | cons z zs =>
        simp only [List.zipWith_cons_cons, List.cons.injEq]
        exact ⟨add_right_comm x y z, ih ys zs⟩

/-- Taking a frame's first `n` atoms does not change fancy indexing with
indices below `n`. -/
lemma selectIdxs_take {α : Type} (f : List α) (n : ℕ) :
    ∀ idxs : List ℕ, (∀ i ∈ idxs, i < n) →
      selectIdxs (f.take n) idxs = selectIdxs f idxs := by
  intro idxs
  induction idxs with
  | nil => intro _; rfl
  | cons i rest ih =>
    intro h
    have hi : i < n := h i (List.mem_cons_self i rest)
    simp only [selectIdxs, List.getElem?_take_of_lt hi,
      ih fun j hj => h j (List.mem_cons_of_mem i hj)]

/-- Batch version of `selectIdxs_take`. -/
lemma selectBatch_take (n : ℕ) (idxs : List ℕ) (h : ∀ i ∈ idxs, i < n) :
    ∀ R : Batch, selectBatch idxs (R.map (List.take n)) = selectBatch idxs R := by
  intro R
  induction R with
  | nil => rfl
  | cons f rest ih =>
    simp only [List.map_cons, selectBatch, selectIdxs_take f n idxs h, ih]

/-- Every pair produced by `combinations2 n` has both components below
`n`. -/
lemma combinations2_lt (n : ℕ) : ∀ p ∈ combinations2 n, p.1 < n ∧ p.2 < n := by
  intro p hp
  simp only [combinations2, List.mem_flatMap, List.mem_map, List.mem_filter,
    List.mem_range, decide_eq_true_eq] at hp
  obtain ⟨i, hi, j, ⟨hj, _⟩, hp⟩ := hp
  subst hp
  exact ⟨hi, hj⟩

/-- Evaluation rule for `Criteria.accept` when the promoted batch holds one
frame and the descriptor returns one value. -/
lemma accept_eval_single (c : Criteria) (Z : List ℕ) (Rin : Coords) (kw : KwargMap) (v : ℝ)
    (hcol : kwCollide c.desc_kwargs kw = false)
    (hn : (promote Rin).length = 1)
    (hdesc : c.desc Z (promote Rin) (c.desc_kwargs ++ kw) = .ok [v]) :
    c.accept Z Rin kw = .ok (.scalar (decide (v < c.cutoff)), .scalar v) := by
  simp only [Criteria.accept, hcol, Bool.false_eq_true, if_false, hdesc, hn, if_true,
    List.map_cons, List.map_nil, List.head?_cons]

/-- Evaluation rule for `Criteria.accept` when the promoted batch does not
hold exactly one frame. -/
lemma accept_eval_arr (c : Criteria) (Z : List ℕ) (Rin : Coords) (kw : KwargMap) (dv : List ℝ)
    (hcol : kwCollide c.desc_kwargs kw = false)
    (hn : (promote Rin).length ≠ 1)
    (hdesc : c.desc Z (promote Rin) (c.desc_kwargs ++ kw) = .ok dv) :
    c.accept Z Rin kw = .ok (.arr (dv.map fun v => decide (v < c.cutoff)), .arr dv) := by
  simp only [Criteria.accept, hcol, Bool.false_eq_true, if_false, hdesc, hn]

/-- Visiting the entity identifiers in a permuted order cannot change a
successful accumulation: each entity's contribution is independent of the
position in the loop, and pointwise addition of the per-frame sums is
commutative. -/
lemma com_dsum_loop_perm (mass : MassTable) (Z : List ℕ) (R : Batch) (e : List ℤ)
    (cms : List Vec3) {l1 l2 : List ℤ} (hp : l1.Perm l2) :
    ∀ acc v, com_dsum_loop mass Z R e cms l1 acc = .ok v →
      com_dsum_loop mass Z R e cms l2 acc = .ok v := by
  induction hp with
  | nil => exact fun acc v h => h
  | cons x _ ih =>
    intro acc v h
    simp only [com_dsum_loop] at h ⊢
    cases he : entity_cm mass Z R e x with
    | error err => simp only [he] at h; exact Except.noConfusion h
    | ok cme =>
      simp only [he] at h ⊢
      exact ih _ _ h
  | swap x y l =>
    intro acc v h
    simp only [com_dsum_loop] at h ⊢
    cases hey : entity_cm mass Z R e y with
    | error err => simp only [hey] at h; exact Except.noConfusion h
    | ok cmy =>
      cases hex : entity_cm mass Z R e x with
      | error err => simp only [hey, hex] at h; exact Except.noConfusion h
      | ok cmx =>
        simp only [hey, hex] at h ⊢
        rw [zipWith_add_right_comm]
        exact h
  | trans _ _ ih1 ih2 => exact fun acc v h => ih2 _ _ (ih1 _ _ h)

/-! ### Concrete inputs used by the claims -/

/-- A mass table giving hydrogen (Z = 1) mass 1 and oxygen (Z = 8) mass 3;
any table whose two masses differ exhibits the C1 divergence. -/
noncomputable def massHO : MassTable := fun z => if z = 8 then 3 else 1

/-- A mass table where every element weighs 1. -/
noncomputable def unitMass : MassTable := fun _ => 1

/-- One frame of four collinear atoms: the two entities `[0,0,1,1]` are
atoms `{0,1}` and `{2,3}`. -/
noncomputable def frameC1 : Frame := [(0,0,0), (0,0,4), (0,0,0), (0,0,8)]

lemma c1_cm_structure :
    get_center_of_mass massHO [1, 8, 8, 1] [frameC1] = .ok [(0, 0, 5/2)] := by
  rw [show [frameC1] = [([(0,0,0), (0,0,4), (0,0,0), (0,0,8)] : Frame)] from rfl,
    get_center_of_mass_eval massHO [1, 8, 8, 1] [1, 8, 8, 1]
      [(0,0,0), (0,0,4), (0,0,0), (0,0,8)] [] (by rfl) (by norm_num [massHO])]
  norm_num [massHO, weightedAvg, List.zipWith]

lemma c1_entity0 :
    entity_cm massHO [1, 8, 8, 1] [frameC1] [0, 0, 1, 1] 0 = .ok [(0, 0, 3)] := by
  rw [show entity_cm massHO [1, 8, 8, 1] [frameC1] [0, 0, 1, 1] 0
      = get_center_of_mass massHO [1, 8, 8, 1] [[(0,0,0), (0,0,4)]] from rfl]
  rw [get_center_of_mass_eval massHO [1, 8, 8, 1] [1, 8] [(0,0,0), (0,0,4)] []
    (by rfl) (by norm_num [massHO])]
  norm_num [massHO, weightedAvg, List.zipWith]

lemma c1_entity1 :
    entity_cm massHO [1, 8, 8, 1] [frameC1] [0, 0, 1, 1] 1 = .ok [(0, 0, 6)] := by
  rw [show entity_cm massHO [1, 8, 8, 1] [frameC1] [0, 0, 1, 1] 1
      = get_center_of_mass massHO [1, 8, 8, 1] [[(0,0,0), (0,0,8)]] from rfl]
  rw [get_center_of_mass_eval massHO [1, 8, 8, 1] [1, 8] [(0,0,0), (0,0,8)] []
    (by rfl) (by norm_num [massHO])]
  norm_num [massHO, weightedAvg, List.zipWith]

lemma c1_entity0_spec :
    entity_cm_spec massHO [1, 8, 8, 1] [frameC1] [0, 0, 1, 1] 0 = .ok [(0, 0, 3)] := by
  rw [show entity_cm_spec massHO [1, 8, 8, 1] [frameC1] [0, 0, 1, 1] 0
      = get_center_of_mass massHO [1, 8] [[(0,0,0), (0,0,4)]] from rfl]
  rw [get_center_of_mass_eval massHO [1, 8] [1, 8] [(0,0,0), (0,0,4)] []
    (by rfl) (by norm_num [massHO])]
  norm_num [massHO, weightedAvg, List.zipWith]

lemma c1_entity1_spec :
    entity_cm_spec massHO [1, 8, 8, 1] [frameC1] [0, 0, 1, 1] 1 = .ok [(0, 0, 2)] := by
  rw [show entity_cm_spec massHO [1, 8, 8, 1] [frameC1] [0, 0, 1, 1] 1
      = get_center_of_mass massHO [8, 1] [[(0,0,0), (0,0,8)]] from rfl]
  rw [get_center_of_mass_eval massHO [8, 1] [8, 1] [(0,0,0), (0,0,8)] []
    (by rfl) (by norm_num [massHO])]
  norm_num [massHO, weightedAvg, List.zipWith]

/-! ### Claim C1 -/

/-- C1 (code bug): `com_distance_sum` does **not** compute each entity's
center of mass from that entity's atoms and their masses only.  It slices
the coordinates to the entity (`R[:, atom_idxs]`) but passes the full `Z`,
so `get_center_of_mass` weights the entity's atoms with the masses of the
structure's *first* `len(atom_idxs)` atoms.  On `Z = [1,8,8,1]`,
`entity_ids = [0,0,1,1]`, one frame of collinear atoms at z = 0, 4, 0, 8 and
a table with mass(1) = 1, mass(8) = 3, the source computes the per-frame sum
4, while the spec's formula (entity restricted to its own atoms and masses,
`com_distance_sum_specCM`) gives 1. -/
theorem C1_entity_masses_bug :
    com_distance_sum massHO [1, 8, 8, 1] [frameC1] [0, 0, 1, 1] = .ok [4] ∧
    com_distance_sum_specCM massHO [1, 8, 8, 1] [frameC1] [0, 0, 1, 1] = .ok [1] := by
  have hded : ([0, 0, 1, 1] : List ℤ).dedup = [0, 1] := by decide
  constructor
  · simp only [com_distance_sum, hded, com_distance_sum_over, c1_cm_structure,
      List.length_cons, List.length_nil, List.replicate_one]
    simp only [com_dsum_loop, c1_entity0, c1_entity1, List.zipWith_cons_cons,
      List.zipWith_nil_right, List.zipWith_nil_left]
    rw [dist3_zaxis, dist3_zaxis, abs_sub_of_le (by norm_num : (5/2 : ℝ) ≤ 3),
      abs_sub_of_le (by norm_num : (5/2 : ℝ) ≤ 6)]
    norm_num
  · simp only [com_distance_sum_specCM, hded, c1_cm_structure,
      List.length_cons, List.length_nil, List.replicate_one]
    simp only [com_dsum_loop_spec, c1_entity0_spec, c1_entity1_spec, List.zipWith_cons_cons,
      List.zipWith_nil_right, List.zipWith_nil_left]
    rw [dist3_zaxis, dist3_zaxis, abs_sub_of_le (by norm_num : (5/2 : ℝ) ≤ 3),
      abs_sub_of_ge (by norm_num : (2 : ℝ) ≤ 5/2)]
    norm_num

/-! ### Claim C2 -/

/-- What the claim asserts of one frame's boolean `a` and descriptor value
`v`: accepted iff strictly below the cutoff, rejected at the cutoff, and
accepted at `cutoff - ε` for every positive `ε`. -/
def acceptBoundary (cut : ℝ) (a : Bool) (v : ℝ) : Prop :=
  (a = true ↔ v < cut) ∧ (v = cut → a = false) ∧
    ∀ ε : ℝ, 0 < ε → v = cut - ε → a = true

lemma acceptBoundary_decide (cut v : ℝ) : acceptBoundary cut (decide (v < cut)) v := by
  refine ⟨by simp, ?_, ?_⟩
  · intro hv; subst hv; exact decide_eq_false (lt_irrefl _)
  · intro ε hε hv; subst hv; exact decide_eq_true (by linarith)

/-- `acceptBoundary` read through the scalar-or-array result forms, pairing
the boolean with its frame's descriptor value. -/
def pairwiseBoundary (cut : ℝ) (bs : Sq Bool) (vs : Sq ℝ) : Prop :=
  match bs, vs with
  | .scalar a, .scalar v => acceptBoundary cut a v
  | .arr la, .arr lv =>
      la.length = lv.length ∧
        ∀ (i : ℕ) (a : Bool) (v : ℝ),
          la[i]? = some a → lv[i]? = some v → acceptBoundary cut a v
  | _, _ => False

/-- C2 (confirmed): however `Criteria.accept` returns (scalar or per-frame
array), each frame is marked accepted exactly when its descriptor value is
strictly below the cutoff; a value equal to the cutoff is rejected and a
value `cutoff - ε` with `ε > 0` is accepted. -/
theorem C2_cutoff_strict (c : Criteria) (Z : List ℕ) (Rin : Coords) (kw : KwargMap)
    (bs : Sq Bool) (vs : Sq ℝ) (h : c.accept Z Rin kw = .ok (bs, vs)) :
    pairwiseBoundary c.cutoff bs vs := by
  simp only [Criteria.accept] at h
  by_cases hcol : kwCollide c.desc_kwargs kw = true
  · rw [if_pos hcol] at h; exact Except.noConfusion h
  · rw [if_neg hcol] at h
    cases hd : c.desc Z (promote Rin) (c.desc_kwargs ++ kw) with
    | error e => rw [hd] at h; exact Except.noConfusion h
    | ok dv =>
      simp only [hd] at h
      by_cases hn : (promote Rin).length = 1
      · rw [if_pos hn] at h
        cases dv with
        | nil => simp only [List.map_nil, List.head?_nil] at h; exact Except.noConfusion h
        | cons v t =>
          simp only [List.map_cons, List.head?_cons, Except.ok.injEq, Prod.mk.injEq] at h
          obtain ⟨h1, h2⟩ := h
          subst h1; subst h2
          exact acceptBoundary_decide c.cutoff v
      · rw [if_neg hn] at h
        simp only [Except.ok.injEq, Prod.mk.injEq] at h
        obtain ⟨h1, h2⟩ := h
        subst h1; subst h2
        refine ⟨by simp, ?_⟩
        intro i a v ha hv
        rw [List.getElem?_map, hv, Option.map_some'] at ha
        obtain rfl := Option.some_inj.mp ha
        exact acceptBoundary_decide c.cutoff v

lemma maxdist_01 : max_atom_pair_dist [1, 1] [[(0,0,0), (0,0,1)]] = .ok [1] := by
  rw [show max_atom_pair_dist [1, 1] [[(0,0,0), (0,0,1)]]
      = .ok [dist3 (0,0,0) (0,0,1)] from rfl,
    dist3_zaxis, abs_sub_of_le (by norm_num : (0:ℝ) ≤ 1)]
  norm_num

lemma c2_accept_eval :
    (maxDistCriteria 2).accept [1, 1] (.dim2 [(0,0,0), (0,0,1)]) []
      = .ok (.scalar true, .scalar 1) := by
  rw [accept_eval_single (maxDistCriteria 2) [1, 1] (.dim2 [(0,0,0), (0,0,1)]) [] 1
    rfl rfl maxdist_01]
  simp only [maxDistCriteria]
  rw [decide_eq_true (show (1:ℝ) < 2 by norm_num)]

/-- Witness for C2: the two-hydrogen frame at distance 1 against cutoff 2 is
accepted, and the boundary properties hold at the returned value. -/
theorem C2_cutoff_strict_witness : pairwiseBoundary 2 (.scalar true) (.scalar 1) :=
  C2_cutoff_strict (maxDistCriteria 2) [1, 1] (.dim2 [(0,0,0), (0,0,1)]) []
    (.scalar true) (.scalar 1) c2_accept_eval

/-! ### Claim C3 -/

lemma maxdist_two_frames :
    max_atom_pair_dist [1, 1] [[(0,0,0), (0,0,1)], [(0,0,0), (0,0,3)]] = .ok [1, 3] := by
  rw [show max_atom_pair_dist [1, 1] [[(0,0,0), (0,0,1)], [(0,0,0), (0,0,3)]]
      = .ok [dist3 (0,0,0) (0,0,1), dist3 (0,0,0) (0,0,3)] from rfl,
    dist3_zaxis, dist3_zaxis, abs_sub_of_le (by norm_num : (0:ℝ) ≤ 1),
    abs_sub_of_le (by norm_num : (0:ℝ) ≤ 3)]
  norm_num

lemma c3_accept_one_frame_batch :
    (maxDistCriteria 2).accept [1, 1] (.dim3 [[(0,0,0), (0,0,1)]]) []
      = .ok (.scalar true, .scalar 1) := by
  rw [accept_eval_single (maxDistCriteria 2) [1, 1] (.dim3 [[(0,0,0), (0,0,1)]]) [] 1
    rfl rfl maxdist_01]
  simp only [maxDistCriteria]
  rw [decide_eq_true (show (1:ℝ) < 2 by norm_num)]

lemma c3_accept_two_frames :
    (maxDistCriteria 2).accept [1, 1] (.dim3 [[(0,0,0), (0,0,1)], [(0,0,0), (0,0,3)]]) []
      = .ok (.arr [true, false], .arr [1, 3]) := by
  rw [accept_eval_arr (maxDistCriteria 2) [1, 1]
    (.dim3 [[(0,0,0), (0,0,1)], [(0,0,0), (0,0,3)]]) [] [1, 3] rfl (by decide)
    maxdist_two_frames]
  simp only [maxDistCriteria, List.map_cons, List.map_nil]
  rw [decide_eq_true (show (1:ℝ) < 2 by norm_num),
    decide_eq_false (show ¬ (3:ℝ) < 2 by norm_num)]

/-- C3 (counterexample): a batched (3-axis) input holding exactly one frame
is *also* squeezed to scalar form — the source squeezes whenever
`n_R == 1`, not only when the input had 2 axes. -/
theorem C3_batch_of_one_squeezed_counterexample :
    (maxDistCriteria 2).accept [1, 1] (.dim3 [[(0,0,0), (0,0,1)]]) []
      = .ok (.scalar true, .scalar 1) ∧ (Sq.scalar (1:ℝ)).isArr = false :=
  ⟨c3_accept_one_frame_batch, rfl⟩

/-- C3 (amended): `Criteria.accept` squeezes the boolean and the descriptor
value to scalar form exactly when the *promoted* batch holds exactly one
frame — whether the input was a 2-axis single frame or a 3-axis batch of
one — and for any other batch returns per-frame arrays that are the
descriptor output and its pointwise cutoff comparison, in frame order. -/
theorem C3_squeeze_iff_one_frame (c : Criteria) (Z : List ℕ) (Rin : Coords) (kw : KwargMap)
    (bs : Sq Bool) (vs : Sq ℝ) (h : c.accept Z Rin kw = .ok (bs, vs)) :
    ((promote Rin).length = 1 → bs.isArr = false ∧ vs.isArr = false) ∧
    ((promote Rin).length ≠ 1 → ∀ dv : List ℝ,
      c.desc Z (promote Rin) (c.desc_kwargs ++ kw) = .ok dv →
        bs = .arr (dv.map fun v => decide (v < c.cutoff)) ∧ vs = .arr dv) := by
  simp only [Criteria.accept] at h
  by_cases hcol : kwCollide c.desc_kwargs kw = true
  · rw [if_pos hcol] at h; exact Except.noConfusion h
  · rw [if_neg hcol] at h
    cases hd : c.desc Z (promote Rin) (c.desc_kwargs ++ kw) with
    | error e => rw [hd] at h; exact Except.noConfusion h
    | ok dv =>
      simp only [hd] at h
      by_cases hn : (promote Rin).length = 1
      · rw [if_pos hn] at h
        cases dv with
        | nil => simp only [List.map_nil, List.head?_nil] at h; exact Except.noConfusion h
        | cons v t =>
          simp only [List.map_cons, List.head?_cons, Except.ok.injEq, Prod.mk.injEq] at h
          obtain ⟨h1, h2⟩ := h
          subst h1; subst h2
          exact ⟨fun _ => ⟨rfl, rfl⟩, fun hne => absurd hn hne⟩
      · rw [if_neg hn] at h
        simp only [Except.ok.injEq, Prod.mk.injEq] at h
        obtain ⟨h1, h2⟩ := h
        subst h1; subst h2
        refine ⟨fun h1 => absurd h1 hn, fun _ dv2 hd2 => ?_⟩
        injection hd2 with h3
        subst h3
        exact ⟨rfl, rfl⟩

/-- Witness for the amended C3 at a genuine two-frame batch. -/
theorem C3_squeeze_iff_one_frame_witness :
    Sq.arr [true, false]
      = Sq.arr (([1, 3] : List ℝ).map fun v => decide (v < (maxDistCriteria 2).cutoff)) ∧
    Sq.arr ([1, 3] : List ℝ) = Sq.arr [1, 3] :=
  (C3_squeeze_iff_one_frame (maxDistCriteria 2) [1, 1]
      (.dim3 [[(0,0,0), (0,0,1)], [(0,0,0), (0,0,3)]]) []
      (.arr [true, false]) (.arr [1, 3]) c3_accept_two_frames).2
    (by decide) [1, 3] maxdist_two_frames

/-! ### Claim C4 -/

/-- C4 (counterexample): on a one-atom structure `max_atom_pair_dist` does
not return zero — it fails (the slice `all_pairs[:, 0]` of the empty 1-D
pair array raises `IndexError`). -/
theorem C4_one_atom_counterexample :
    max_atom_pair_dist [1] [[(0,0,0)]] = .error .indexError ∧
    max_atom_pair_dist [1] [[(0,0,0)]] ≠ .ok [0] := by
  refine ⟨rfl, ?_⟩
  rw [show max_atom_pair_dist [1] [[(0,0,0)]] = Except.error Err.indexError from rfl]
  intro hc
  exact Except.noConfusion hc

/-- C4 (amended): for a structure with exactly one atom,
`max_atom_pair_dist` fails with an index error on every batch (it has no
defined value), while `get_center_of_mass` returns that atom's position for
every frame. -/
theorem C4_one_atom (mass : MassTable) (Z : List ℕ) (R : Batch)
    (hZ : Z.length = 1) (hm : mass (Z.headD 0) ≠ 0) (hR : R ≠ [])
    (h1 : ∀ f ∈ R, ∃ p : Vec3, f = [p]) :
    max_atom_pair_dist Z R = .error .indexError ∧
    get_center_of_mass mass Z R = .ok (R.map fun f => f.headD (0,0,0)) := by
  have hc : combinations2 Z.length = [] := by rw [hZ]; rfl
  constructor
  · simp [max_atom_pair_dist, hc]
  · cases Z with
    | nil => simp at hZ
    | cons z0 zt =>
      cases zt with
      | cons z1 zt2 => simp at hZ
      | nil =>
        cases R with
        | nil => exact absurd rfl hR
        | cons f0 rest =>
          obtain ⟨p0, hp0⟩ := h1 f0 (List.mem_cons_self f0 rest)
          subst hp0
          rw [get_center_of_mass_eval mass [z0] [z0] [p0] rest rfl (by simpa using hm)]
          congr 1
          apply List.map_congr_left
          intro f hf
          obtain ⟨p, rfl⟩ := h1 f hf
          simp only [List.map_cons, List.map_nil, List.headD_cons]
          exact weightedAvg_single (mass z0) hm p

/-- Witness for the amended C4 on a concrete one-atom frame. -/
theorem C4_one_atom_witness :
    max_atom_pair_dist [1] [[(2,3,4)]] = .error .indexError ∧
    get_center_of_mass unitMass [1] [[(2,3,4)]]
      = .ok (([[(2,3,4)]] : Batch).map fun f => f.headD (0,0,0)) :=
  C4_one_atom unitMass [1] [[(2,3,4)]] rfl (by norm_num [unitMass]) (by simp)
    (by intro f hf; rw [List.mem_singleton] at hf; exact ⟨(2,3,4), hf⟩)

/-! ### Claim C5 -/

/-- C5 (counterexample): `Criteria.accept` on the one-frame batch `[r]`
returns an *already squeezed* scalar result, so the claim's recipe —
extract element `[0]` of the batch result, then squeeze — has nothing to
extract from (`Sq.fst?` is `none` on a scalar, as numpy indexing into a
scalar raises). -/
theorem C5_first_element_counterexample :
    (maxDistCriteria 2).accept [1, 1] (.dim2 [(0,0,0), (0,0,1)]) []
      = .ok (.scalar true, .scalar 1) ∧
    (maxDistCriteria 2).accept [1, 1] (.dim3 [[(0,0,0), (0,0,1)]]) []
      = .ok (.scalar true, .scalar 1) ∧
    (Sq.scalar true : Sq Bool).fst? = none ∧ (Sq.scalar (1:ℝ)).fst? = none :=
  ⟨c2_accept_eval, c3_accept_one_frame_batch, rfl, rfl⟩

/-- C5 (amended): the single-frame call `accept(Z, r)` and the one-frame
batch call `accept(Z, [r])` return identical results outright — the batch
call's result is already squeezed to scalar form, so no element extraction
is involved. -/
theorem C5_single_vs_batch (c : Criteria) (Z : List ℕ) (r : Frame) (kw : KwargMap) :
    c.accept Z (.dim2 r) kw = c.accept Z (.dim3 [r]) kw := rfl

/-! ### Claim C6 -/

/-- C6 (confirmed): whichever order the distinct entity identifiers are
visited in, a successful `com_distance_sum` result is reproduced exactly:
real-number addition of the per-frame contributions is commutative and each
entity's contribution does not depend on its position in the loop. -/
theorem C6_entity_order_invariant (mass : MassTable) (Z : List ℕ) (R : Batch)
    (entity_ids : List ℤ) (ids : List ℤ) (hperm : ids.Perm entity_ids.dedup)
    (v : List ℝ) (h : com_distance_sum mass Z R entity_ids = .ok v) :
    com_distance_sum_over mass Z R entity_ids ids = .ok v := by
  simp only [com_distance_sum, com_distance_sum_over] at h ⊢
  cases hc : get_center_of_mass mass Z R with
  | error e => rw [hc] at h; exact Except.noConfusion h
  | ok cms =>
    simp only [hc] at h ⊢
    exact com_dsum_loop_perm mass Z R entity_ids cms hperm.symm _ _ h

lemma c6_cm_structure :
    get_center_of_mass unitMass [1, 1] [[(0,0,0), (0,0,2)]] = .ok [(0, 0, 1)] := by
  rw [get_center_of_mass_eval unitMass [1, 1] [1, 1] [(0,0,0), (0,0,2)] []
    (by rfl) (by norm_num [unitMass])]
  norm_num [unitMass, weightedAvg, List.zipWith]

lemma c6_entity0 :
    entity_cm unitMass [1, 1] [[(0,0,0), (0,0,2)]] [0, 1] 0 = .ok [(0, 0, 0)] := by
  rw [show entity_cm unitMass [1, 1] [[(0,0,0), (0,0,2)]] [0, 1] 0
      = get_center_of_mass unitMass [1, 1] [[(0,0,0)]] from rfl]
  rw [get_center_of_mass_eval unitMass [1, 1] [1] [(0,0,0)] [] (by rfl)
    (by norm_num [unitMass])]
  norm_num [unitMass, weightedAvg, List.zipWith]

lemma c6_entity1 :
    entity_cm unitMass [1, 1] [[(0,0,0), (0,0,2)]] [0, 1] 1 = .ok [(0, 0, 2)] := by
  rw [show entity_cm unitMass [1, 1] [[(0,0,0), (0,0,2)]] [0, 1] 1
      = get_center_of_mass unitMass [1, 1] [[(0,0,2)]] from rfl]
  rw [get_center_of_mass_eval unitMass [1, 1] [1] [(0,0,2)] [] (by rfl)
    (by norm_num [unitMass])]
  norm_num [unitMass, weightedAvg, List.zipWith]

lemma c6_eval :
    com_distance_sum unitMass [1, 1] [[(0,0,0), (0,0,2)]] [0, 1] = .ok [2] := by
  have hded : ([0, 1] : List ℤ).dedup = [0, 1] := by decide
  simp only [com_distance_sum, hded, com_distance_sum_over, c6_cm_structure,
    List.length_cons, List.length_nil, List.replicate_one]
  simp only [com_dsum_loop, c6_entity0, c6_entity1, List.zipWith_cons_cons,
    List.zipWith_nil_right, List.zipWith_nil_left]
  rw [dist3_zaxis, dist3_zaxis, abs_sub_of_ge (by norm_num : (0:ℝ) ≤ 1),
    abs_sub_of_le (by norm_num : (1:ℝ) ≤ 2)]
  norm_num

/-- Witness for C6: the two one-atom entities visited in the reversed order
`[1, 0]` reproduce the result of `com_distance_sum`. -/
theorem C6_entity_order_invariant_witness :
    com_distance_sum_over unitMass [1, 1] [[(0,0,0), (0,0,2)]] [0, 1] [1, 0] = .ok [2] :=
  C6_entity_order_invariant unitMass [1, 1] [[(0,0,0), (0,0,2)]] [0, 1] [1, 0]
    (by decide) [2] c6_eval

/-! ### Claim C7 -/

/-- The spec's center-of-mass formula `CM = Σ_i (mass_i · r_i) / Σ_i mass_i`
with masses looked up by atomic number, written directly over `Z`
(the spec-side definition for the C7 refinement comparison). -/
noncomputable def cm_spec (mass : MassTable) (Z : List ℕ) (f : Frame) : Vec3 :=
  ((List.zipWith (fun z (v : Vec3) => mass z * v.1) Z f).sum / (Z.map mass).sum,
   (List.zipWith (fun z (v : Vec3) => mass z * v.2.1) Z f).sum / (Z.map mass).sum,
   (List.zipWith (fun z (v : Vec3) => mass z * v.2.2) Z f).sum / (Z.map mass).sum)

lemma weightedAvg_map_mass (mass : MassTable) (Z : List ℕ) (f : Frame) :
    weightedAvg (Z.map mass) f = cm_spec mass Z f := by
  simp only [weightedAvg, cm_spec, List.zipWith_map_left]

lemma weightedAvg_pair_equal (m : ℝ) (hm : m ≠ 0) :
    weightedAvg [m, m] [(0,0,0), (0,0,1)] = (0, 0, 1/2) := by
  simp only [weightedAvg, List.zipWith, List.sum_cons, List.sum_nil, Prod.mk.injEq]
  norm_num
  rw [div_eq_iff (by intro hc; exact hm (by linarith))]
  ring

/-- C7 (confirmed): on a rectangular batch whose atom count matches
`len(Z)`, `get_center_of_mass` returns, per frame, exactly the spec's
mass-weighted average `Σ_i mass(Z_i)·r_i / Σ_i mass(Z_i)` (one 3-vector per
frame, so the output has shape `(n_frames, 3)`); in particular for
`Z = [1,1]`, `R = [[0,0,0],[0,0,1]]` it returns `[0, 0, 1/2]` and
`max_atom_pair_dist` returns `1`. -/
theorem C7_center_of_mass_formula (mass : MassTable) (Z : List ℕ) (f0 : Frame) (R : Batch)
    (hR : R.head? = some f0) (hf : f0.length = Z.length)
    (hm : (Z.map mass).sum ≠ 0) (hm1 : mass 1 ≠ 0) :
    get_center_of_mass mass Z R = .ok (R.map (cm_spec mass Z)) ∧
    get_center_of_mass mass [1, 1] [[(0,0,0), (0,0,1)]] = .ok [(0, 0, 1/2)] ∧
    max_atom_pair_dist [1, 1] [[(0,0,0), (0,0,1)]] = .ok [1] := by
  have hsum2 : (([1, 1] : List ℕ).map mass).sum ≠ 0 := by
    simp only [List.map_cons, List.map_nil, List.sum_cons, List.sum_nil, add_zero]
    intro hc; exact hm1 (by linarith)
  refine ⟨?_, ?_, maxdist_01⟩
  · cases R with
    | nil => exact Option.noConfusion hR
    | cons f0' rest =>
      rw [List.head?_cons] at hR
      obtain rfl := Option.some_inj.mp hR
      have htake : takeExact Z f0'.length = some Z := by
        rw [hf]; simp [takeExact]
      rw [get_center_of_mass_eval mass Z Z f0' rest htake hm]
      congr 1
      apply List.map_congr_left
      intro f _
      exact weightedAvg_map_mass mass Z f
  · rw [get_center_of_mass_eval mass [1, 1] [1, 1] [(0,0,0), (0,0,1)] [] (by rfl) hsum2]
    rw [show ([1, 1] : List ℕ).map mass = [mass 1, mass 1] from rfl]
    simp only [List.map_cons, List.map_nil]
    rw [weightedAvg_pair_equal (mass 1) hm1]

/-- Witness for C7 at the spec's concrete two-hydrogen scenario with the
unit mass table. -/
theorem C7_center_of_mass_formula_witness :
    get_center_of_mass unitMass [1, 1] [[(0,0,0), (0,0,1)]]
      = .ok (([[(0,0,0), (0,0,1)]] : Batch).map (cm_spec unitMass [1, 1])) ∧
    get_center_of_mass unitMass [1, 1] [[(0,0,0), (0,0,1)]] = .ok [(0, 0, 1/2)] ∧
    max_atom_pair_dist [1, 1] [[(0,0,0), (0,0,1)]] = .ok [1] :=
  C7_center_of_mass_formula unitMass [1, 1] [(0,0,0), (0,0,1)] [[(0,0,0), (0,0,1)]]
    rfl rfl (by norm_num [unitMass]) (by norm_num [unitMass])

/-! ### Claim C8 -/

lemma maxdist_3atoms :
    max_atom_pair_dist [1, 1] [[(0,0,0), (0,0,1), (0,0,9)]] = .ok [1] := by
  rw [show max_atom_pair_dist [1, 1] [[(0,0,0), (0,0,1), (0,0,9)]]
      = .ok [dist3 (0,0,0) (0,0,1)] from rfl,
    dist3_zaxis, abs_sub_of_le (by norm_num : (0:ℝ) ≤ 1)]
  norm_num

/-- C8 (counterexample): a call whose `atomic_numbers` length (2) disagrees
with the coordinates' atom axis (3) does **not** fail with any shape error:
it silently returns the distance between the first two atoms (1, ignoring
the far atom at z = 9) and accepts the frame. -/
theorem C8_shape_mismatch_counterexample :
    (maxDistCriteria 5).accept [1, 1] (.dim2 [(0,0,0), (0,0,1), (0,0,9)]) []
      = .ok (.scalar true, .scalar 1) := by
  rw [accept_eval_single (maxDistCriteria 5) [1, 1] (.dim2 [(0,0,0), (0,0,1), (0,0,9)]) [] 1
    rfl rfl maxdist_3atoms]
  simp only [maxDistCriteria]
  rw [decide_eq_true (show (1:ℝ) < 5 by norm_num)]

lemma combinations2_fst_lt (n : ℕ) : ∀ i ∈ (combinations2 n).map Prod.fst, i < n := by
  intro i hi
  obtain ⟨p, hp, rfl⟩ := List.mem_map.mp hi
  exact (combinations2_lt n p hp).1

lemma combinations2_snd_lt (n : ℕ) : ∀ i ∈ (combinations2 n).map Prod.snd, i < n := by
  intro i hi
  obtain ⟨p, hp, rfl⟩ := List.mem_map.mp hi
  exact (combinations2_lt n p hp).2

/-- Truncating each frame to the first `len(Z)` atoms does not change
`max_atom_pair_dist`: the source only ever indexes atoms below `len(Z)`. -/
lemma maxdist_truncate (Z : List ℕ) (R : Batch) :
    max_atom_pair_dist Z (R.map (List.take Z.length)) = max_atom_pair_dist Z R := by
  simp only [max_atom_pair_dist,
    selectBatch_take Z.length ((combinations2 Z.length).map Prod.fst)
      (combinations2_fst_lt Z.length) R,
    selectBatch_take Z.length ((combinations2 Z.length).map Prod.snd)
      (combinations2_snd_lt Z.length) R]

/-- Fancy indexing fails as soon as one index in the list is out of
range. -/
lemma selectIdxs_none {α : Type} (f : List α) (idxs : List ℕ) (i : ℕ)
    (hi : i ∈ idxs) (hlen : f.length ≤ i) : selectIdxs f idxs = none := by
  induction idxs with
  | nil => cases hi
  | cons j rest ih =>
    simp only [selectIdxs]
    rcases List.mem_cons.mp hi with rfl | hmem
    · rw [List.getElem?_eq_none hlen]
    · rw [ih hmem]
      cases f[j]? <;> rfl

/-- Batch fancy indexing fails as soon as one frame's indexing fails. -/
lemma selectBatch_none (idxs : List ℕ) (f : Frame) :
    ∀ R : Batch, f ∈ R → selectIdxs f idxs = none → selectBatch idxs R = none := by
  intro R
  induction R with
  | nil => intro h; cases h
  | cons g rest ih =>
    intro hmem hnone
    rcases List.mem_cons.mp hmem with rfl | hmem2
    · simp only [selectBatch, hnone]
    · simp only [selectBatch, ih hmem2 hnone]
      cases selectIdxs g idxs <;> rfl

/-- When at least one pair exists, a frame holding fewer atoms than
`len(Z)` makes `max_atom_pair_dist` fail: the pair list reaches atom index
`len(Z) - 1`, which is outside that frame. -/
lemma maxdist_too_few_atoms (Z : List ℕ) (R : Batch) (f0 : Frame)
    (h2 : 2 ≤ Z.length) (hmem : f0 ∈ R) (hlt : f0.length < Z.length) :
    max_atom_pair_dist Z R = .error .indexError := by
  have hp : (Z.length - 2, Z.length - 1) ∈ combinations2 Z.length := by
    simp only [combinations2, List.mem_flatMap, List.mem_map, List.mem_filter,
      List.mem_range, decide_eq_true_eq]
    exact ⟨Z.length - 2, by omega, Z.length - 1, ⟨by omega, by omega⟩, rfl⟩
  have hsndmem : Z.length - 1 ∈ (combinations2 Z.length).map Prod.snd :=
    List.mem_map.mpr ⟨_, hp, rfl⟩
  have hidx : selectIdxs f0 ((combinations2 Z.length).map Prod.snd) = none :=
    selectIdxs_none f0 _ (Z.length - 1) hsndmem (by omega)
  have hbatch : selectBatch ((combinations2 Z.length).map Prod.snd) R = none :=
    selectBatch_none _ f0 R hmem hidx
  have hnonempty : (combinations2 Z.length).isEmpty = false := by
    cases hc : combinations2 Z.length with
    | nil => rw [hc] at hp; cases hp
    | cons a l => rfl
  simp only [max_atom_pair_dist, hnonempty, Bool.false_eq_true, if_false, hbatch]
  cases selectBatch ((combinations2 Z.length).map Prod.fst) R <;> rfl

/-- A `Z` shorter than the leading frame's atom axis makes the mass-lookup
loop of `get_center_of_mass` fail with an index error — no silent
computation on that side. -/
lemma gcm_too_few_masses (mass : MassTable) (Z : List ℕ) (R : Batch) (f0 : Frame)
    (hR : R.head? = some f0) (hlt : Z.length < f0.length) :
    get_center_of_mass mass Z R = .error .indexError := by
  cases R with
  | nil => exact Option.noConfusion hR
  | cons g rest =>
    rw [List.head?_cons] at hR
    obtain rfl := Option.some_inj.mp hR
    have ht : takeExact Z g.length = none := by
      simp only [takeExact, ite_eq_right_iff]
      intro hc; omega
    simp only [get_center_of_mass, List.head?_cons, ht]

/-- C8 (amended): the source has no `ShapeMismatch` error and
`Criteria.accept` performs no shape validation; what a length disagreement
does depends on the descriptor.  For the `max_atom_pair_dist` criteria,
atoms beyond the first `len(Z)` are silently ignored (truncating every
frame there changes nothing), while a frame with fewer atoms than `len(Z)`
(once at least one pair exists) makes the call fail with an index error.
For `get_center_of_mass` (the mass-lookup step the claim cites), a `Z`
shorter than the leading frame's atom axis fails with an index error, while
a longer `Z` silently computes with the masses of its first `n_atoms`
entries.  The cutoff comparison itself never fails: whenever the merged
keyword maps are collision-free and the descriptor returns a nonempty value
vector, `accept` returns a result. -/
theorem C8_no_shape_check (cut : ℝ) (mass : MassTable) (Z : List ℕ) (R : Batch) (f0 : Frame)
    (c : Criteria) (Zc : List ℕ) (Rin : Coords) (kwargs : KwargMap) (dv : List ℝ)
    (hcol : kwCollide c.desc_kwargs kwargs = false)
    (hdesc : c.desc Zc (promote Rin) (c.desc_kwargs ++ kwargs) = .ok dv)
    (hdv : dv ≠ []) :
    (maxDistCriteria cut).accept Z (.dim3 (R.map (List.take Z.length))) []
      = (maxDistCriteria cut).accept Z (.dim3 R) [] ∧
    (2 ≤ Z.length → f0 ∈ R → f0.length < Z.length →
      (maxDistCriteria cut).accept Z (.dim3 R) [] = .error .indexError) ∧
    (R.head? = some f0 → Z.length < f0.length →
      get_center_of_mass mass Z R = .error .indexError) ∧
    (R.head? = some f0 → f0.length ≤ Z.length →
      ((Z.take f0.length).map mass).sum ≠ 0 →
      get_center_of_mass mass Z R
        = .ok (R.map (weightedAvg ((Z.take f0.length).map mass)))) ∧
    succeeds (c.accept Zc Rin kwargs) = true := by
  refine ⟨?_, ?_, ?_, ?_, ?_⟩
  · simp only [Criteria.accept, maxDistCriteria, maxDistDesc, promote, List.length_map]
    rw [maxdist_truncate]
  · intro h2 hmem hlt
    simp only [Criteria.accept, maxDistCriteria, maxDistDesc, promote, kwCollide,
      List.any_nil, Bool.false_eq_true, if_false,
      maxdist_too_few_atoms Z R f0 h2 hmem hlt]
  · exact gcm_too_few_masses mass Z R f0
  · intro hR hle hsum
    cases R with
    | nil => exact Option.noConfusion hR
    | cons g rest =>
      rw [List.head?_cons] at hR
      obtain rfl := Option.some_inj.mp hR
      exact get_center_of_mass_eval mass Z (Z.take g.length) g rest
        (by simp only [takeExact, if_pos hle]) hsum
  · simp only [Criteria.accept, hcol, Bool.false_eq_true, if_false, hdesc]
    cases dv with
    | nil => exact absurd rfl hdv
    | cons v t =>
      by_cases hn : (promote Rin).length = 1
      · rw [if_pos hn]
        simp only [List.map_cons, List.head?_cons, succeeds]
      · rw [if_neg hn]
        simp only [succeeds]

/-- Witness for the amended C8: with `Z = [1,1]` on a 3-atom frame the
maxDist criteria truncates silently and `get_center_of_mass` raises; with
`Z = [1,1,1]` on a 2-atom frame the maxDist criteria raises and
`get_center_of_mass` silently computes with the first two masses; and the
mismatched accept call of the counterexample succeeds. -/
theorem C8_no_shape_check_witness :
    ((maxDistCriteria 5).accept [1, 1]
        (.dim3 (([[(0,0,0), (0,0,1), (0,0,9)]] : Batch).map
          (List.take ([1, 1] : List ℕ).length))) []
      = (maxDistCriteria 5).accept [1, 1] (.dim3 [[(0,0,0), (0,0,1), (0,0,9)]]) []) ∧
    ((maxDistCriteria 5).accept [1, 1, 1] (.dim3 [[(0,0,0), (0,0,1)]]) []
      = .error .indexError) ∧
    (get_center_of_mass unitMass [1, 1] [[(0,0,0), (0,0,1), (0,0,9)]]
      = .error .indexError) ∧
    (get_center_of_mass unitMass [1, 1, 1] [[(0,0,0), (0,0,1)]]
      = .ok (([[(0,0,0), (0,0,1)]] : Batch).map
          (weightedAvg ((([1, 1, 1] : List ℕ).take
            ([(0,0,0), (0,0,1)] : Frame).length).map unitMass)))) ∧
    succeeds ((maxDistCriteria 5).accept [1, 1] (.dim2 [(0,0,0), (0,0,1), (0,0,9)]) [])
      = true := by
  refine ⟨?_, ?_, ?_, ?_, ?_⟩
  · exact (C8_no_shape_check 5 unitMass [1, 1] [[(0,0,0), (0,0,1), (0,0,9)]]
      [(0,0,0), (0,0,1), (0,0,9)] (maxDistCriteria 5) [1, 1]
      (.dim2 [(0,0,0), (0,0,1), (0,0,9)]) [] [1] rfl maxdist_3atoms (by simp)).1
  · exact (C8_no_shape_check 5 unitMass [1, 1, 1] [[(0,0,0), (0,0,1)]]
      [(0,0,0), (0,0,1)] (maxDistCriteria 5) [1, 1]
      (.dim2 [(0,0,0), (0,0,1), (0,0,9)]) [] [1] rfl maxdist_3atoms
      (by simp)).2.1 (by norm_num) (by simp) (by norm_num)
  · exact (C8_no_shape_check 5 unitMass [1, 1] [[(0,0,0), (0,0,1), (0,0,9)]]
      [(0,0,0), (0,0,1), (0,0,9)] (maxDistCriteria 5) [1, 1]
      (.dim2 [(0,0,0), (0,0,1), (0,0,9)]) [] [1] rfl maxdist_3atoms
      (by simp)).2.2.1 rfl (by norm_num)
  · exact (C8_no_shape_check 5 unitMass [1, 1, 1] [[(0,0,0), (0,0,1)]]
      [(0,0,0), (0,0,1)] (maxDistCriteria 5) [1, 1]
      (.dim2 [(0,0,0), (0,0,1), (0,0,9)]) [] [1] rfl maxdist_3atoms
      (by simp)).2.2.2.1 rfl (by norm_num) (by norm_num [unitMass])
  · exact (C8_no_shape_check 5 unitMass [1, 1] [[(0,0,0), (0,0,1), (0,0,9)]]
      [(0,0,0), (0,0,1), (0,0,9)] (maxDistCriteria 5) [1, 1]
      (.dim2 [(0,0,0), (0,0,1), (0,0,9)]) [] [1] rfl maxdist_3atoms (by simp)).2.2.2.2

/-! ### Claim C9 -/

/-- C9 (confirmed): when a call-time keyword collides with a fixed keyword,
`accept` fails immediately at call time with the duplicate-argument error —
for *any* descriptor, which is therefore never invoked; when the key sets
are disjoint, the call behaves exactly as if the descriptor were invoked
with the union `fixed ++ kw` of the two keyword maps. -/
theorem C9_duplicate_kwargs (d : Desc) (fixed : KwargMap) (cut : ℝ) (Z : List ℕ)
    (Rin : Coords) (kw : KwargMap) :
    (Criteria.mk d fixed cut).accept Z Rin kw =
      if kwCollide fixed kw then .error .duplicateArgument
      else (Criteria.mk (fun z r _ => d z r (fixed ++ kw)) [] cut).accept Z Rin [] := by
  by_cases hc : kwCollide fixed kw = true
  · simp [Criteria.accept, hc]
  · simp only [Bool.not_eq_true] at hc
    simp [Criteria.accept, hc, kwCollide]

/-! ### Claim C10 -/

/-- C10 (confirmed): `max_atom_pair_dist` reads its atomic numbers only
through their count (`range(len(Z))` enumerates atom indices), so two
atomic-number lists of equal length give identical results on every
batch. -/
theorem C10_maxdist_ignores_elements (Z1 Z2 : List ℕ) (R : Batch)
    (h : Z1.length = Z2.length) :
    max_atom_pair_dist Z1 R = max_atom_pair_dist Z2 R := by
  simp only [max_atom_pair_dist, h]

/-- Witness for C10 with two different element assignments of length 2. -/
theorem C10_maxdist_ignores_elements_witness :
    max_atom_pair_dist [1, 2] [[(0,0,0), (0,0,1)]]
      = max_atom_pair_dist [8, 8] [[(0,0,0), (0,0,1)]] :=
  C10_maxdist_ignores_elements [1, 2] [8, 8] [[(0,0,0), (0,0,1)]] rfl

end Reptar
